import Mathlib

/-!
Verification of `pdf_print/print_pdf.py`: a shallow embedding of the page-range parser (`parse_page_ranges`) and the
extraction/merge engine (`extract_pages_to_pdf`) of the repository, together
with theorems settling the specification claims about them.

Modelling conventions:
* Python `str.split(sep)` for a one-character separator is embedded as
  `pySplit` over `List Char` (it returns `[""]` on empty input, like Python).
* Python `int(s)` on a string is embedded as `pyInt`: leading/trailing
  whitespace is stripped, an optional single `+`/`-` sign is allowed, and the
  remainder must be a nonempty digit sequence, optionally with single
  underscores between digits (CPython's underscore rule).
* The Python `set` accumulated by `parse_page_ranges` is observed only through
  `sorted(...)` at the end; we accumulate the inserted values in a list and
  take `sortDedup` (ascending insertion sort that drops duplicates) at the
  end, which is exactly `sorted(set(...))` of the accumulated values.
* `PyPDF2` documents are abstracted to their page count: a source path is
  `some n` (readable, `n` pages) or `none` (opening/reading raises, which the
  engine's `except` clause turns into skipping the pair).
* A page appended to the `PdfWriter` is identified by the 0-based index of the
  (path, range) pair it came from together with its 1-based page number.
* `input()` calls made by the engine's re-prompt loop consume from an explicit
  `stdin : List String`; an exhausted stdin models `EOFError` (caught by the
  `except` clause, which skips the pair).
* Filesystem effects are recorded in the result: whether `os.makedirs` ran,
  and the written content (`none` when no write happened).
-/

/-- Embedding of Python `s.split(sep)` for a single-character separator,
over the character list of `s`.  Like Python, splitting the empty string
yields `[[]]` (one empty token), and separators at the ends produce empty
tokens. -/
def pySplit (sep : Char) : List Char → List (List Char)
  | [] => [[]]
  | c :: cs =>
    if c = sep then [] :: pySplit sep cs
    else
      match pySplit sep cs with
      | [] => [[c]]
      | t :: ts => (c :: t) :: ts

/-- Digit tail of a Python integer literal: digits, where a single `_` may
stand between two digits (no leading, trailing or doubled underscores). -/
def pyIntRest : List Char → Bool
  | [] => true
  | ['_'] => false
  | '_' :: c :: cs => c.isDigit && pyIntRest cs
  | c :: cs => c.isDigit && pyIntRest cs

/-- A nonempty digit sequence with CPython's underscore rule. -/
def pyIntDigits : List Char → Bool
  | [] => false
  | c :: cs => c.isDigit && pyIntRest cs

/-- Numeric value of a digit sequence, ignoring underscores. -/
def digitsVal (cs : List Char) : Nat :=
  cs.foldl (fun acc c => if c = '_' then acc else acc * 10 + (c.toNat - '0'.toNat)) 0

/-- Strip leading and trailing whitespace, as Python `str.strip()` does
before `int()` parses a string. -/
def pyStrip (cs : List Char) : List Char :=
  ((cs.dropWhile Char.isWhitespace).reverse.dropWhile Char.isWhitespace).reverse

/-- Embedding of Python `int(s)`: returns `some` of the value, or `none` when
`int` would raise `ValueError`. -/
def pyInt (s : List Char) : Option ℤ :=
  match pyStrip s with
  | '+' :: rest => if pyIntDigits rest then some (digitsVal rest : ℤ) else none
  | '-' :: rest => if pyIntDigits rest then some (-(digitsVal rest : ℤ)) else none
  | rest => if pyIntDigits rest then some (digitsVal rest : ℤ) else none

/-- The list `s, s + 1, ..., s + n - 1`. -/
def intRangeAux (start : ℤ) : Nat → List ℤ
  | 0 => []
  | n + 1 => start :: intRangeAux (start + 1) n

/-- Embedding of Python `range(start, stop + 1)` as a list of integers
`start, start + 1, ..., stop`. -/
def intRange (start stop : ℤ) : List ℤ :=
  intRangeAux start (stop + 1 - start).toNat

/-- Insert `x` into an ascending duplicate-free list, keeping it ascending and
duplicate-free. -/
def insertAsc (x : ℤ) : List ℤ → List ℤ
  | [] => [x]
  | y :: ys => if x < y then x :: y :: ys else if x = y then y :: ys else y :: insertAsc x ys

/-- Embedding of Python `sorted(set(l))`: the distinct values of `l` in
ascending order. -/
def sortDedup (l : List ℤ) : List ℤ :=
  l.foldl (fun acc x => insertAsc x acc) []

/-- One iteration of the `for r in ranges` loop body of `parse_page_ranges`
(lines 18–28 of the source): given the values inserted so far, process token
`r`.  `none` models the `raise ValueError` / failed `int()` paths, which the
surrounding `except` turns into a `None` return of the whole parse. -/
def process_token (pages : List ℤ) (r : List Char) (max_pages : Nat) : Option (List ℤ) :=
  if '-' ∈ r then
    match pySplit '-' r with
    | [a, b] =>
      match pyInt a, pyInt b with
      | some start, some stop =>
        if start > stop ∨ start < 1 ∨ stop > (max_pages : ℤ) then none
        else some (pages ++ intRange start stop)
      | _, _ => none
    | _ => none
  else
    match pyInt r with
    | some page =>
      if page < 1 ∨ page > (max_pages : ℤ) then none
      else some (pages ++ [page])
    | none => none

/-- The token loop of `parse_page_ranges`: process the tokens in order,
aborting with `none` as soon as one token fails. -/
def parse_tokens (max_pages : Nat) : List (List Char) → List ℤ → Option (List ℤ)
  | [], pages => some pages
  | r :: rest, pages =>
    match process_token pages r max_pages with
    | none => none
    | some pages2 => parse_tokens max_pages rest pages2

/-- Embedding of `parse_page_ranges(page_ranges, max_pages)` (lines 4–32 of
`print_pdf.py`): split on `,`, process each token, and on success return the
accumulated set sorted ascending; `none` models the `return None` taken when
any token raises `ValueError`. -/
def parse_page_ranges (page_ranges : String) (max_pages : Nat) : Option (List ℤ) :=
  match parse_tokens max_pages (pySplit ',' page_ranges.toList) [] with
  | none => none
  | some pages => some (sortDedup pages)

/-- Embedding of Python `s.endswith(pat)` over character lists. -/
def pyEndsWith (s pat : List Char) : Bool :=
  decide (s.reverse.take pat.length = pat.reverse)

/-- State produced by processing (path, range) pairs: the pages appended to
the `PdfWriter` (tagged with the 0-based pair index and the 1-based page
number), the remaining stdin, and the `pages_added` flag. -/
structure RunState where
  pages : List (Nat × ℤ)
  stdin : List String
  added : Bool
deriving DecidableEq

/-- The `while not valid_range` loop of `extract_pages_to_pdf` (lines 59–81
of the source) for one pair whose document opened with `numPages` pages: if
the parse succeeds, append the selected pages (tagged with pair index `i`)
and set `pages_added`; if it fails, re-prompt `input()` for a replacement
expression and retry; when stdin is exhausted, `input()` raises `EOFError`,
which the `except` clause catches, skipping the pair. -/
def process_pair (numPages : Nat) (i : Nat) : String → List String → RunState
  | pr, [] =>
    match parse_page_ranges pr numPages with
    | some pages => ⟨pages.map (fun p => (i, p)), [], true⟩
    | none => ⟨[], [], false⟩
  | pr, next :: rest =>
    match parse_page_ranges pr numPages with
    | some pages => ⟨pages.map (fun p => (i, p)), next :: rest, true⟩
    | none => process_pair numPages i next rest

/-- Strict document-then-page order on writer entries: an entry from an
earlier pair precedes one from a later pair, and entries of the same pair
are ordered by page number. -/
def pageLt (a b : Nat × ℤ) : Prop :=
  a.1 < b.1 ∨ (a.1 = b.1 ∧ a.2 < b.2)

/-- The `for i, (pdf_path, page_range) in enumerate(zip(...))` loop (lines
57–81): a pair whose document cannot be opened raises inside the `try`, is
caught, and the loop moves on; otherwise the pair is processed by
`process_pair`.  Pages, stdin and the `pages_added` flag are threaded
through. -/
def run_pairs : List (Option Nat × String) → Nat → List String → RunState
  | [], _, stdin => ⟨[], stdin, false⟩
  | (doc, pr) :: rest, i, stdin =>
    match doc with
    | none => run_pairs rest (i + 1) stdin
    | some n =>
      let s := process_pair n i pr stdin
      let r := run_pairs rest (i + 1) s.stdin
      ⟨s.pages ++ r.pages, r.stdin, s.added || r.added⟩

/-- Terminal report of a run: the success message with the output path, or
the "No valid pages were extracted" message. -/
inductive Outcome where
  | written : String → Outcome
  | noPages : Outcome
deriving DecidableEq

/-- Observable result of `extract_pages_to_pdf`: whether `os.makedirs` was
invoked, the resolved output path, the pages accumulated in the writer, the
content written to disk (`none` when no file was written), and the final
report. -/
structure ExtractResult where
  dirCreated : Bool
  outputPath : String
  pages : List (Nat × ℤ)
  written : Option (List (Nat × ℤ))
  outcome : Outcome
deriving DecidableEq

/-- Embedding of `extract_pages_to_pdf(pdf_paths, page_ranges, output_folder,
output_filename)` (lines 34–89 of the source).  `pdf_paths` abstracts each
path to its document (`some` page count, or `none` when opening raises);
`folder_exists` is the `os.path.exists(output_folder)` observation; `stdin`
feeds the `input()` re-prompts.  The filename gets `.pdf` appended when
missing, the output folder is created (before any pair is processed) when
absent, the pairs are processed via `run_pairs`, and the writer's content is
written to the output path only when `pages_added` is set. -/
def extract_pages_to_pdf (pdf_paths : List (Option Nat)) (page_ranges : List String)
    (output_folder : String) (folder_exists : Bool) (stdin : List String)
    (output_filename : String) : ExtractResult :=
  let fname := if pyEndsWith output_filename.toList ".pdf".toList then output_filename
               else output_filename ++ ".pdf"
  let output_path := output_folder ++ "/" ++ fname
  let r := run_pairs (pdf_paths.zip page_ranges) 0 stdin
  if r.added then
    ⟨!folder_exists, output_path, r.pages, some r.pages, Outcome.written output_path⟩
  else
    ⟨!folder_exists, output_path, r.pages, none, Outcome.noPages⟩

/-- A token on which the parser's loop body raises: a range token whose parts
are not both integer-parseable or whose split is not into exactly two parts,
a range with `start > stop`, `start < 1` or `stop > max_pages`, or a plain
token that is not integer-parseable or whose value is `< 1` or `> max_pages`. -/
def bad_token (r : List Char) (m : Nat) : Bool :=
  if '-' ∈ r then
    match pySplit '-' r with
    | [a, b] =>
      match pyInt a, pyInt b with
      | some start, some stop =>
        decide (start > stop) || decide (start < 1) || decide (stop > (m : ℤ))
      | _, _ => true
    | _ => true
  else
    match pyInt r with
    | some page => decide (page < 1) || decide (page > (m : ℤ))
    | none => true

example : parse_page_ranges "2,2-4,3" 5 = some [2, 3, 4] := by decide
example : parse_page_ranges "1,3-4,6-8,10" 10 = some [1, 3, 4, 6, 7, 8, 10] := by decide
example : parse_page_ranges "" 7 = none := by decide
example : parse_page_ranges "0-2" 5 = none := by decide
example : parse_page_ranges "3-2" 5 = none := by decide
example : parse_page_ranges "1-1" 1 = some [1] := by decide
example : parse_page_ranges "1-5" 5 = some [1, 2, 3, 4, 5] := by decide
example : parse_page_ranges "1,9" 5 = none := by decide
example : parse_page_ranges "1,x" 5 = none := by decide
example : parse_page_ranges " 2 " 5 = some [2] := by decide
example : parse_page_ranges "1-2-3" 5 = none := by decide
example : parse_page_ranges "+2" 5 = some [2] := by decide

example : pyEndsWith "merged.pdf".toList ".pdf".toList = true := by decide
example : pyEndsWith "merged".toList ".pdf".toList = false := by decide

example :
    (extract_pages_to_pdf [some 3, some 2] ["1,3", "2"] "out" true [] "merged").pages
      = [(0, 1), (0, 3), (1, 2)] := by decide
example :
    (extract_pages_to_pdf [some 3, some 2] ["1,3", "2"] "out" true [] "merged").outcome
      = Outcome.written "out/merged.pdf" := by decide
example :
    (extract_pages_to_pdf [some 5] ["0"] "out" true ["1"] "o.pdf").pages = [(0, 1)] := by decide
example :
    (extract_pages_to_pdf [some 1] ["2"] "out" false [] "o.pdf").outcome
      = Outcome.noPages := by decide
example :
    (extract_pages_to_pdf [some 3, some 9, some 2] ["1", "4-11", "2"] "out" true [] "x.pdf").pages
      = [(0, 1), (2, 2)] := by decide
example :
    (extract_pages_to_pdf [none, some 2] ["1", "2"] "out" true [] "x.pdf").pages
      = [(1, 2)] := by decide

lemma mem_intRangeAux {x : ℤ} : ∀ (n : Nat) (s : ℤ),
    x ∈ intRangeAux s n ↔ s ≤ x ∧ x < s + (n : ℤ) := by
  intro n
  induction n with
  | zero =>
    intro s
    simp [intRangeAux]
  | succ n ih =>
    intro s
    simp only [intRangeAux, List.mem_cons, ih]
    omega

lemma mem_intRange {x start stop : ℤ} : x ∈ intRange start stop ↔ start ≤ x ∧ x ≤ stop := by
  rw [intRange, mem_intRangeAux]
  omega

lemma intRange_ne_nil {start stop : ℤ} (h : start ≤ stop) : intRange start stop ≠ [] :=
  List.ne_nil_of_mem (mem_intRange.2 ⟨h, le_refl stop⟩)

lemma mem_insertAsc (a x : ℤ) (l : List ℤ) : a ∈ insertAsc x l ↔ a = x ∨ a ∈ l := by
  induction l with
  | nil => simp [insertAsc]
  | cons y ys ih =>
    rcases lt_trichotomy x y with h1 | h1 | h1
    · simp [insertAsc, h1, List.mem_cons]
    · subst h1
      simp only [insertAsc]
      rw [if_neg (lt_irrefl x)]
      simp only [if_true, eq_self_iff_true, if_pos, List.mem_cons]
      tauto
    · have hne : x ≠ y := ne_of_gt h1
      have hnlt : ¬x < y := not_lt_of_gt h1
      simp only [insertAsc, if_neg hnlt, if_neg hne, List.mem_cons, ih]
      tauto

lemma sorted_insertAsc (x : ℤ) {l : List ℤ} (h : l.Sorted (· < ·)) :
    (insertAsc x l).Sorted (· < ·) := by
  induction l with
  | nil => simp [insertAsc]
  | cons y ys ih =>
    rw [List.sorted_cons] at h
    obtain ⟨hy, hys⟩ := h
    by_cases h1 : x < y
    · simp only [insertAsc, if_pos h1]
      rw [List.sorted_cons]
      refine ⟨?_, List.sorted_cons.2 ⟨hy, hys⟩⟩
      intro b hb
      rcases List.mem_cons.1 hb with rfl | hb
      · exact h1
      · exact h1.trans (hy b hb)
    · by_cases h2 : x = y
      · simp only [insertAsc, if_neg h1, if_pos h2]
        exact List.sorted_cons.2 ⟨hy, hys⟩
      · simp only [insertAsc, if_neg h1, if_neg h2]
        rw [List.sorted_cons]
        refine ⟨?_, ih hys⟩
        intro b hb
        rcases (mem_insertAsc b x ys).1 hb with rfl | hb
        · omega
        · exact hy b hb

lemma sorted_foldl_insertAsc (l : List ℤ) : ∀ acc : List ℤ, acc.Sorted (· < ·) →
    (l.foldl (fun acc x => insertAsc x acc) acc).Sorted (· < ·) := by
  induction l with
  | nil => exact fun acc h => h
  | cons x xs ih => exact fun acc h => ih _ (sorted_insertAsc x h)

lemma sorted_sortDedup (l : List ℤ) : (sortDedup l).Sorted (· < ·) :=
  sorted_foldl_insertAsc l [] (by simp)

lemma mem_foldl_insertAsc (l : List ℤ) : ∀ (acc : List ℤ) (a : ℤ),
    a ∈ l.foldl (fun acc x => insertAsc x acc) acc ↔ a ∈ acc ∨ a ∈ l := by
  induction l with
  | nil => simp
  | cons x xs ih =>
    intro acc a
    simp only [List.foldl_cons, ih, mem_insertAsc, List.mem_cons]
    tauto

lemma mem_sortDedup {a : ℤ} {l : List ℤ} : a ∈ sortDedup l ↔ a ∈ l := by
  rw [sortDedup, mem_foldl_insertAsc]
  simp

lemma sortDedup_ne_nil {l : List ℤ} (h : l ≠ []) : sortDedup l ≠ [] := by
  obtain ⟨x, hx⟩ := List.exists_mem_of_ne_nil l h
  exact List.ne_nil_of_mem (mem_sortDedup.2 hx)

lemma pySplit_ne_nil (sep : Char) (cs : List Char) : pySplit sep cs ≠ [] := by
  induction cs with
  | nil => simp [pySplit]
  | cons c cs ih =>
    simp only [pySplit]
    split
    · exact List.cons_ne_nil _ _
    · split <;> exact List.cons_ne_nil _ _

lemma process_token_none_iff (pages : List ℤ) (r : List Char) (m : Nat) :
    process_token pages r m = none ↔ bad_token r m = true := by
  unfold process_token bad_token
  split
  · split
    · split
      · split
        · next hcond =>
          exact iff_of_true rfl (by simp only [Bool.or_eq_true, decide_eq_true_eq]; tauto)
        · next hcond =>
          exact iff_of_false (by simp)
            (by simp only [Bool.or_eq_true, decide_eq_true_eq]; tauto)
      · simp
    · simp
  · split
    · split
      · next hcond =>
        exact iff_of_true rfl (by simp only [Bool.or_eq_true, decide_eq_true_eq]; tauto)
      · next hcond =>
        exact iff_of_false (by simp)
          (by simp only [Bool.or_eq_true, decide_eq_true_eq]; tauto)
    · simp

lemma process_token_some_spec (pages : List ℤ) (r : List Char) (m : Nat) (s : List ℤ)
    (h : process_token pages r m = some s) :
    ∃ t, s = pages ++ t ∧ t ≠ [] ∧ ∀ x ∈ t, 1 ≤ x ∧ x ≤ (m : ℤ) := by
  unfold process_token at h
  split at h
  · split at h
    · split at h
      · split at h
        · exact absurd h (by simp)
        · next hcond =>
          injection h with h
          refine ⟨_, h.symm, intRange_ne_nil (by omega), ?_⟩
          intro x hx
          rw [mem_intRange] at hx
          omega
      · exact absurd h (by simp)
    · exact absurd h (by simp)
  · split at h
    · next page heq =>
      split at h
      · exact absurd h (by simp)
      · next hcond =>
        injection h with h
        refine ⟨[page], h.symm, by simp, ?_⟩
        intro x hx
        rcases List.mem_singleton.1 hx with rfl
        omega
    · exact absurd h (by simp)

lemma parse_tokens_none_iff (m : Nat) : ∀ (tokens : List (List Char)) (pages : List ℤ),
    parse_tokens m tokens pages = none ↔ ∃ t ∈ tokens, bad_token t m = true := by
  intro tokens
  induction tokens with
  | nil =>
    intro pages
    simp [parse_tokens]
  | cons r rest ih =>
    intro pages
    simp only [parse_tokens]
    cases hp : process_token pages r m with
    | none =>
      have hbad := (process_token_none_iff pages r m).1 hp
      constructor
      · intro _
        exact ⟨r, List.mem_cons_self r rest, hbad⟩
      · intro _
        rfl
    | some pages2 =>
      have hgood : bad_token r m = false := by
        cases hbt : bad_token r m
        · rfl
        · have := (process_token_none_iff pages r m).2 hbt
          rw [hp] at this
          exact absurd this (by simp)
      rw [ih pages2]
      constructor
      · rintro ⟨t, ht, hbt⟩
        exact ⟨t, List.mem_cons_of_mem r ht, hbt⟩
      · rintro ⟨t, ht, hbt⟩
        rcases List.mem_cons.1 ht with rfl | ht2
        · rw [hbt] at hgood
          cases hgood
        · exact ⟨t, ht2, hbt⟩

lemma parse_tokens_some_spec (m : Nat) : ∀ (tokens : List (List Char)) (pages l : List ℤ),
    parse_tokens m tokens pages = some l →
    (∀ x ∈ l, x ∈ pages ∨ (1 ≤ x ∧ x ≤ (m : ℤ))) ∧ ((pages ≠ [] ∨ tokens ≠ []) → l ≠ []) := by
  intro tokens
  induction tokens with
  | nil =>
    intro pages l h
    simp only [parse_tokens, Option.some.injEq] at h
    subst h
    refine ⟨fun x hx => Or.inl hx, ?_⟩
    rintro (hp | hT)
    · exact hp
    · exact absurd rfl hT
  | cons r rest ih =>
    intro pages l h
    simp only [parse_tokens] at h
    cases hp : process_token pages r m with
    | none =>
      rw [hp] at h
      exact absurd h (by simp)
    | some pages2 =>
      rw [hp] at h
      have h' : parse_tokens m rest pages2 = some l := h
      obtain ⟨t, hs, htne, hbound⟩ := process_token_some_spec pages r m pages2 hp
      obtain ⟨ihmem, ihne⟩ := ih pages2 l h'
      constructor
      · intro x hx
        rcases ihmem x hx with hx2 | hb
        · rw [hs] at hx2
          rcases List.mem_append.1 hx2 with hxp | hxt
          · exact Or.inl hxp
          · exact Or.inr (hbound x hxt)
        · exact Or.inr hb
      · intro _
        apply ihne
        left
        rw [hs]
        intro hnil
        exact htne (List.append_eq_nil.1 hnil).2

lemma parse_page_ranges_none_iff (e : String) (m : Nat) :
    parse_page_ranges e m = none ↔ ∃ t ∈ pySplit ',' e.toList, bad_token t m = true := by
  rw [← parse_tokens_none_iff m (pySplit ',' e.toList) []]
  unfold parse_page_ranges
  cases parse_tokens m (pySplit ',' e.toList) [] with
  | none => simp
  | some pages => simp

lemma parse_page_ranges_some_spec (e : String) (m : Nat) (l : List ℤ)
    (h : parse_page_ranges e m = some l) :
    List.Sorted (· < ·) l ∧ (∀ x ∈ l, 1 ≤ x ∧ x ≤ (m : ℤ)) ∧ l ≠ [] := by
  unfold parse_page_ranges at h
  cases hp : parse_tokens m (pySplit ',' e.toList) [] with
  | none =>
    rw [hp] at h
    exact absurd h (by simp)
  | some pages =>
    rw [hp] at h
    have h' : some (sortDedup pages) = some l := h
    injection h' with h'
    subst h'
    obtain ⟨hmem, hne⟩ := parse_tokens_some_spec m (pySplit ',' e.toList) [] pages hp
    refine ⟨sorted_sortDedup pages, ?_, ?_⟩
    · intro x hx
      rcases hmem x (mem_sortDedup.1 hx) with hx0 | hb
      · exact absurd hx0 (List.not_mem_nil x)
      · exact hb
    · exact sortDedup_ne_nil (hne (Or.inr (pySplit_ne_nil ',' e.toList)))

/-- Claim C3: for every expression `e` and bound `m` on which the parse succeeds,
`parse_page_ranges e m` returns a strictly ascending sequence of distinct
integers, each lying in `[1, m]`. -/
theorem parse_page_ranges_pageset_invariant (e : String) (m : Nat) (l : List ℤ)
    (h : parse_page_ranges e m = some l) :
    List.Sorted (· < ·) l ∧ l.Nodup ∧ ∀ x ∈ l, 1 ≤ x ∧ x ≤ (m : ℤ) := by
  obtain ⟨hs, hb, _⟩ := parse_page_ranges_some_spec e m l h
  exact ⟨hs, hs.nodup, hb⟩

theorem parse_page_ranges_pageset_invariant_witness :
    List.Sorted (fun a b : ℤ => a < b) [1, 3, 4] ∧ ([1, 3, 4] : List ℤ).Nodup ∧
      ∀ x ∈ ([1, 3, 4] : List ℤ), 1 ≤ x ∧ x ≤ ((5 : Nat) : ℤ) :=
  parse_page_ranges_pageset_invariant "1,3-4" 5 [1, 3, 4] (by decide)

/-- Claim C4: if the expression contains a bad token — a range token with
`start > end`, a token one of whose integer values is `< 1` or `> m`, or a
token (or range part) that is not integer-parseable — then
`parse_page_ranges` fails with the failure signal `none`. -/
theorem parse_page_ranges_fails_on_bad_token (e : String) (m : Nat)
    (h : ∃ t ∈ pySplit ',' e.toList, bad_token t m = true) :
    parse_page_ranges e m = none :=
  (parse_page_ranges_none_iff e m).2 h

theorem parse_page_ranges_fails_on_bad_token_witness :
    parse_page_ranges "0-2" 5 = none :=
  parse_page_ranges_fails_on_bad_token "0-2" 5 ⟨['0', '-', '2'], by decide, by decide⟩

/-- Claim C5: the parse is all-or-nothing — whenever any single token of the
expression fails validation, no matter how many valid tokens precede it,
the whole parse returns the single failure signal `none`, never a partial
page set. -/
theorem parse_page_ranges_all_or_nothing (e : String) (m : Nat)
    (pre post : List (List Char)) (t : List Char)
    (hsplit : pySplit ',' e.toList = pre ++ t :: post)
    (hbad : bad_token t m = true) :
    parse_page_ranges e m = none :=
  (parse_page_ranges_none_iff e m).2
    ⟨t, by rw [hsplit]; exact List.mem_append.2 (Or.inr (List.mem_cons_self t post)), hbad⟩

theorem parse_page_ranges_all_or_nothing_witness :
    parse_page_ranges "1,9" 5 = none :=
  parse_page_ranges_all_or_nothing "1,9" 5 [['1']] [] ['9'] (by decide) (by decide)

/-- Claim C8: overlapping and duplicate selections collapse silently:
`parse_page_ranges "2,2-4,3" 5` succeeds with exactly `[2, 3, 4]`. -/
theorem parse_page_ranges_overlap_collapse :
    parse_page_ranges "2,2-4,3" 5 = some [2, 3, 4] := by decide

/-- Claim C9: for every bound `m`, parsing the empty range expression fails with
the failure signal `none` (it is not an empty page set): splitting `""` on
`,` yields the single empty token, whose `int()` parse raises. -/
theorem parse_page_ranges_empty_fails (m : Nat) :
    parse_page_ranges "" m = none :=
  (parse_page_ranges_none_iff "" m).2 ⟨[], by decide, rfl⟩

lemma process_pair_parse_some (n i : Nat) (pr : String) (stdin : List String)
    (pages : List ℤ) (hp : parse_page_ranges pr n = some pages) :
    process_pair n i pr stdin = ⟨pages.map (fun p => (i, p)), stdin, true⟩ := by
  cases stdin <;> simp only [process_pair] <;> rw [hp]

lemma process_pair_spec (n i : Nat) : ∀ (stdin : List String) (pr : String),
    (∀ x ∈ (process_pair n i pr stdin).pages, x.1 = i) ∧
    List.Pairwise pageLt (process_pair n i pr stdin).pages ∧
    ((process_pair n i pr stdin).added = true ↔ (process_pair n i pr stdin).pages ≠ []) := by
  have hsome : ∀ (stdin : List String) (pr : String) (pages : List ℤ),
      parse_page_ranges pr n = some pages →
      (∀ x ∈ (process_pair n i pr stdin).pages, x.1 = i) ∧
      List.Pairwise pageLt (process_pair n i pr stdin).pages ∧
      ((process_pair n i pr stdin).added = true ↔ (process_pair n i pr stdin).pages ≠ []) := by
    intro stdin pr pages hp
    obtain ⟨hsort, _, hne⟩ := parse_page_ranges_some_spec pr n pages hp
    rw [process_pair_parse_some n i pr stdin pages hp]
    refine ⟨?_, ?_, ?_⟩
    · intro x hx
      obtain ⟨p, _, rfl⟩ := List.mem_map.1 hx
      rfl
    · exact List.pairwise_map.2 (hsort.imp (fun hab => Or.inr ⟨rfl, hab⟩))
    · simp [List.map_eq_nil_iff, hne]
  intro stdin
  induction stdin with
  | nil =>
    intro pr
    cases hp : parse_page_ranges pr n with
    | some pages => exact hsome [] pr pages hp
    | none =>
      simp only [process_pair]
      rw [hp]
      simp [pageLt]
  | cons x xs ih =>
    intro pr
    cases hp : parse_page_ranges pr n with
    | some pages => exact hsome (x :: xs) pr pages hp
    | none =>
      have hstep : process_pair n i pr (x :: xs) = process_pair n i x xs := by
        simp only [process_pair]
        rw [hp]
      rw [hstep]
      exact ih x

lemma run_pairs_spec : ∀ (pairs : List (Option Nat × String)) (i : Nat) (stdin : List String),
    ((run_pairs pairs i stdin).added = true ↔ (run_pairs pairs i stdin).pages ≠ []) ∧
    List.Pairwise pageLt (run_pairs pairs i stdin).pages ∧
    ∀ x ∈ (run_pairs pairs i stdin).pages, i ≤ x.1 := by
  intro pairs
  induction pairs with
  | nil =>
    intro i stdin
    simp [run_pairs]
  | cons p rest ih =>
    intro i stdin
    obtain ⟨doc, pr⟩ := p
    cases doc with
    | none =>
      simp only [run_pairs]
      obtain ⟨ih1, ih2, ih3⟩ := ih (i + 1) stdin
      exact ⟨ih1, ih2, fun x hx => le_trans (Nat.le_succ i) (ih3 x hx)⟩
    | some n =>
      simp only [run_pairs]
      obtain ⟨pp1, pp2, pp3⟩ := process_pair_spec n i stdin pr
      obtain ⟨ih1, ih2, ih3⟩ := ih (i + 1) (process_pair n i pr stdin).stdin
      refine ⟨?_, ?_, ?_⟩
      · rw [Bool.or_eq_true, pp3, ih1]
        simp only [ne_eq, List.append_eq_nil]
        tauto
      · refine List.pairwise_append.2 ⟨pp2, ih2, ?_⟩
        intro a ha b hb
        have h1 : a.1 = i := pp1 a ha
        have h2 : i + 1 ≤ b.1 := ih3 b hb
        exact Or.inl (by omega)
      · intro x hx
        rcases List.mem_append.1 hx with hx1 | hx2
        · rw [pp1 x hx1]
        · exact le_trans (Nat.le_succ i) (ih3 x hx2)

lemma extract_pages_eq (pdf_paths : List (Option Nat)) (page_ranges : List String)
    (output_folder : String) (folder_exists : Bool) (stdin : List String)
    (output_filename : String) :
    (extract_pages_to_pdf pdf_paths page_ranges output_folder folder_exists stdin
        output_filename).pages =
      (run_pairs (pdf_paths.zip page_ranges) 0 stdin).pages := by
  simp only [extract_pages_to_pdf]
  split <;> rfl

lemma zip_take_min {α β : Type} : ∀ (l1 : List α) (l2 : List β),
    (l1.take (min l1.length l2.length)).zip (l2.take (min l1.length l2.length)) = l1.zip l2 := by
  intro l1
  induction l1 with
  | nil =>
    intro l2
    simp
  | cons a l1 ih =>
    intro l2
    cases l2 with
    | nil => simp
    | cons b l2 =>
      have hmin : min (a :: l1).length (b :: l2).length = min l1.length l2.length + 1 := by
        simp only [List.length_cons]
        omega
      rw [hmin, List.take_succ_cons, List.take_succ_cons, List.zip_cons_cons, ih,
        List.zip_cons_cons]

/-- Claim C1 (corrected): the claim says a parse failure makes the engine skip the
pair and proceed without contributing pages.  In the code a parse failure
instead re-prompts `input()` for a replacement expression for the same pair:
with document `[some 5]`, expression `"0"` (whose parse fails) and stdin
`["1"]`, the pair is retried with `"1"` and contributes page `(0, 1)`. -/
theorem extract_retry_contributes_counterexample :
    parse_page_ranges "0" 5 = none ∧
    (extract_pages_to_pdf [some 5] ["0"] "out" true ["1"] "o.pdf").pages = [(0, 1)] := by
  constructor
  · decide
  · decide

/-- Claim C1 (amended): when the Range Parser fails on a pair's expression, the
engine re-prompts for a replacement expression for the same pair and retries
with it; only when no replacement input remains (`input()` raises `EOFError`)
is the pair skipped without contributing pages, and the run then proceeds to
the next pair unharmed. -/
theorem process_pair_retry_then_skip (n i : Nat) (pr x : String) (xs : List String)
    (h : parse_page_ranges pr n = none) :
    process_pair n i pr (x :: xs) = process_pair n i x xs ∧
    process_pair n i pr [] = ⟨[], [], false⟩ ∧
    ∀ rest : List (Option Nat × String),
      run_pairs ((some n, pr) :: rest) i [] = run_pairs rest (i + 1) [] := by
  have hskip : process_pair n i pr [] = ⟨[], [], false⟩ := by
    simp only [process_pair]
    rw [h]
  refine ⟨?_, hskip, ?_⟩
  · simp only [process_pair]
    rw [h]
  · intro rest
    simp only [run_pairs, hskip]
    simp

theorem process_pair_retry_then_skip_witness :
    process_pair 5 0 "0" ["2"] = process_pair 5 0 "2" [] ∧
    process_pair 5 0 "0" [] = ⟨[], [], false⟩ ∧
    run_pairs [(some 5, "0"), (some 3, "1")] 0 [] = run_pairs [(some 3, "1")] 1 [] := by
  obtain ⟨h1, h2, h3⟩ := process_pair_retry_then_skip 5 0 "0" "2" [] (by decide)
  exact ⟨h1, h2, h3 [(some 3, "1")]⟩

/-- Claim C2 (corrected): the claim says the output folder is created only on
successful completion with at least one collected page.  In the code
`os.makedirs` runs before any pair is processed: with a missing folder and a
run that collects no pages, the folder is still created while no write
happens. -/
theorem extract_dir_created_without_output_counterexample :
    (extract_pages_to_pdf [some 1] ["2"] "out" false [] "o.pdf").pages = [] ∧
    (extract_pages_to_pdf [some 1] ["2"] "out" false [] "o.pdf").written = none ∧
    (extract_pages_to_pdf [some 1] ["2"] "out" false [] "o.pdf").outcome = Outcome.noPages ∧
    (extract_pages_to_pdf [some 1] ["2"] "out" false [] "o.pdf").dirCreated = true := by
  refine ⟨?_, ?_, ?_, ?_⟩ <;> decide

/-- Claim C2 (amended): the output folder is created (when absent) unconditionally
at the start of every run, regardless of its outcome; the output artifact
itself is written exactly when at least one page was collected. -/
theorem extract_dir_created_unconditionally (pdf_paths : List (Option Nat))
    (page_ranges : List String) (output_folder : String) (folder_exists : Bool)
    (stdin : List String) (output_filename : String) :
    (extract_pages_to_pdf pdf_paths page_ranges output_folder folder_exists stdin
        output_filename).dirCreated = !folder_exists ∧
    ((extract_pages_to_pdf pdf_paths page_ranges output_folder folder_exists stdin
        output_filename).written ≠ none ↔
      (extract_pages_to_pdf pdf_paths page_ranges output_folder folder_exists stdin
        output_filename).pages ≠ []) := by
  have hiff := (run_pairs_spec (pdf_paths.zip page_ranges) 0 stdin).1
  simp only [extract_pages_to_pdf]
  cases hadd : (run_pairs (pdf_paths.zip page_ranges) 0 stdin).added with
  | true =>
    have hne := hiff.1 hadd
    simp [hadd, hne]
  | false =>
    have hnil : (run_pairs (pdf_paths.zip page_ranges) 0 stdin).pages = [] := by
      by_contra hne
      have := hiff.2 hne
      rw [hadd] at this
      exact absurd this (by simp)
    simp [hadd, hnil]

/-- Claim C6: if after all pairs the accumulator is empty, no write occurs and the
distinct no-output outcome is reported; if it is non-empty, the accumulated
pages are written (once) to the output path and success is reported with
that path. -/
theorem extract_write_iff_pages (pdf_paths : List (Option Nat)) (page_ranges : List String)
    (output_folder : String) (folder_exists : Bool) (stdin : List String)
    (output_filename : String) :
    (extract_pages_to_pdf pdf_paths page_ranges output_folder folder_exists stdin
        output_filename).written =
      (if (extract_pages_to_pdf pdf_paths page_ranges output_folder folder_exists stdin
            output_filename).pages = [] then none
        else some ((extract_pages_to_pdf pdf_paths page_ranges output_folder folder_exists
            stdin output_filename).pages)) ∧
    (extract_pages_to_pdf pdf_paths page_ranges output_folder folder_exists stdin
        output_filename).outcome =
      (if (extract_pages_to_pdf pdf_paths page_ranges output_folder folder_exists stdin
            output_filename).pages = [] then Outcome.noPages
        else Outcome.written ((extract_pages_to_pdf pdf_paths page_ranges output_folder
            folder_exists stdin output_filename).outputPath)) := by
  have hiff := (run_pairs_spec (pdf_paths.zip page_ranges) 0 stdin).1
  simp only [extract_pages_to_pdf]
  cases hadd : (run_pairs (pdf_paths.zip page_ranges) 0 stdin).added with
  | true =>
    have hne := hiff.1 hadd
    simp [hadd, hne]
  | false =>
    have hnil : (run_pairs (pdf_paths.zip page_ranges) 0 stdin).pages = [] := by
      by_contra hne
      have := hiff.2 hne
      rw [hadd] at this
      exact absurd this (by simp)
    simp [hadd, hnil]

/-- Claim C7: the output pages appear in document-then-page order — all selected
pages of an earlier pair precede those of a later pair, and within one pair
pages appear in ascending page order. -/
theorem extract_output_ordered (pdf_paths : List (Option Nat)) (page_ranges : List String)
    (output_folder : String) (folder_exists : Bool) (stdin : List String)
    (output_filename : String) :
    List.Pairwise pageLt
      (extract_pages_to_pdf pdf_paths page_ranges output_folder folder_exists stdin
        output_filename).pages := by
  rw [extract_pages_eq]
  exact (run_pairs_spec (pdf_paths.zip page_ranges) 0 stdin).2.1

/-- Claim C10: with lists of different lengths, the engine processes exactly
`min` many pairs — the run is identical to the run on the truncated lists,
so surplus entries of the longer list are silently ignored. -/
theorem extract_ignores_surplus (pdf_paths : List (Option Nat)) (page_ranges : List String)
    (output_folder : String) (folder_exists : Bool) (stdin : List String)
    (output_filename : String) :
    extract_pages_to_pdf pdf_paths page_ranges output_folder folder_exists stdin
        output_filename =
      extract_pages_to_pdf (pdf_paths.take (min pdf_paths.length page_ranges.length))
        (page_ranges.take (min pdf_paths.length page_ranges.length)) output_folder
        folder_exists stdin output_filename := by
  simp only [extract_pages_to_pdf]
  rw [zip_take_min]
